import Mathlib

/-!
Verification development for the MLX90381 UART UI core
(`src/MLX90381/ui/main.py`): a shallow embedding of the field-map
bit-pack/unpack layer, the line decoder, the programming sequencer and
the session state machine, together with theorems about them.

Machine integers are modelled as `Nat` with explicit masking
(`&&& 0xFFFF`, `&&& 0xFF`) exactly where the Python source masks.
Python dictionaries `dict[int, int]` are modelled as `Nat → Option Nat`.
-/

/-- One row of the field specification table (dataclass `FieldSpec`). -/
structure FieldSpec where
  name : String
  reg_addr : Option Nat
  mtp_addr : Nat
  byte_sel : String
  lsb : Nat
  width : Nat
deriving DecidableEq, Repr

/-- The static field table `FIELD_SPECS` (19 entries, verbatim from the source). -/
def FIELD_SPECS : List FieldSpec := [
  ⟨"RG_X", some 0x20, 0x00, "LSB", 0, 3⟩,
  ⟨"FG_X", some 0x20, 0x00, "LSB", 3, 5⟩,
  ⟨"RG_Y", some 0x22, 0x02, "LSB", 0, 3⟩,
  ⟨"FG_Y", some 0x22, 0x02, "LSB", 3, 5⟩,
  ⟨"RG_Z", some 0x24, 0x04, "LSB", 0, 3⟩,
  ⟨"FG_Z", some 0x24, 0x04, "LSB", 3, 5⟩,
  ⟨"VOQ_OUT1", some 0x20, 0x00, "MSB", 0, 4⟩,
  ⟨"VOQ_OUT2", some 0x22, 0x02, "MSB", 0, 4⟩,
  ⟨"AXIS_CH1", some 0x26, 0x06, "LSB", 0, 2⟩,
  ⟨"AXIS_CH2", some 0x26, 0x06, "LSB", 2, 2⟩,
  ⟨"PLATEZ", some 0x26, 0x06, "LSB", 4, 2⟩,
  ⟨"TC", some 0x28, 0x08, "LSB", 0, 5⟩,
  ⟨"FILT", some 0x2A, 0x0A, "LSB", 0, 5⟩,
  ⟨"DIS_DIAG", none, 0x0C, "LSB", 1, 1⟩,
  ⟨"MEMLOCK", none, 0x0C, "LSB", 0, 1⟩,
  ⟨"TC350_DATA", none, 0x0E, "LSB", 0, 4⟩,
  ⟨"TC2000_DATA", none, 0x14, "MSB", 4, 4⟩,
  ⟨"CHIP_ID1", none, 0x1A, "LSB", 0, 8⟩,
  ⟨"CHIP_ID2", none, 0x1C, "LSB", 0, 8⟩,
  ⟨"CHIP_ID3", none, 0x1E, "LSB", 0, 8⟩]

/-- Address→word mapping (Python `dict[int, int]`). -/
abbrev AddrMap := Nat → Option Nat

/-- `words.get(addr, 0)`. -/
def dictGet (m : AddrMap) (a : Nat) : Nat := (m a).getD 0

/-- `words[addr] = w`. -/
def dictSet (m : AddrMap) (a w : Nat) : AddrMap := fun x => if x = a then some w else m x

/-- The empty dict. -/
def dictEmpty : AddrMap := fun _ => none

/-- `_get_byte(word, byte_sel)`: select the low or high byte of a 16-bit word. -/
def get_byte (word : Nat) (byte_sel : String) : Nat :=
  let w := word &&& 0xFFFF
  if byte_sel = "LSB" then w &&& 0xFF else (w >>> 8) &&& 0xFF

/-- `_set_byte(word, byte_sel, byte_val)`: replace the selected byte of a 16-bit word. -/
def set_byte (word : Nat) (byte_sel : String) (byte_val : Nat) : Nat :=
  let w := word &&& 0xFFFF
  let b := byte_val &&& 0xFF
  if byte_sel = "LSB" then (w &&& 0xFF00) ||| b else (w &&& 0x00FF) ||| (b <<< 8)

/-- `get_field_at(words, addr, spec)`: `None` if `addr is None`, else extract
the field from the word at `addr` (missing address reads as word 0). -/
def get_field_at (words : AddrMap) (addr : Option Nat) (spec : FieldSpec) : Option Nat :=
  match addr with
  | none => none
  | some a =>
    let w := dictGet words a &&& 0xFFFF
    let b := get_byte w spec.byte_sel
    let mask := (1 <<< spec.width) - 1
    some ((b >>> spec.lsb) &&& mask)

/-- `get_reg_field(words, spec)`. -/
def get_reg_field (words : AddrMap) (spec : FieldSpec) : Option Nat :=
  get_field_at words spec.reg_addr spec

/-- `get_mtp_field(words, spec)`. -/
def get_mtp_field (words : AddrMap) (spec : FieldSpec) : Option Nat :=
  get_field_at words spec.mtp_addr spec

/-- `set_field_at(words, addr, spec, value)`: returns `(False, words)` if
`addr is None`; otherwise masks `value` to the field width, clears the target
bit range of the selected byte, ORs in the shifted value, stores the updated
word and returns `(True, updated words)`.  The Python `b & ~(mask << lsb)` on
the byte `b < 256` is embedded as `b &&& (0xFF ^^^ (mask <<< lsb))`, which
agrees with the arbitrary-precision two's-complement `~` on all byte values
produced by `_get_byte`. -/
def set_field_at (words : AddrMap) (addr : Option Nat) (spec : FieldSpec) (value : Nat) :
    Bool × AddrMap :=
  match addr with
  | none => (false, words)
  | some a =>
    let mask := (1 <<< spec.width) - 1
    let v := value &&& mask
    let w := dictGet words a &&& 0xFFFF
    let b := get_byte w spec.byte_sel
    let b2 := (b &&& (0xFF ^^^ (mask <<< spec.lsb))) ||| (v <<< spec.lsb)
    let w2 := set_byte w spec.byte_sel b2
    (true, dictSet words a (w2 &&& 0xFFFF))

/-- `set_reg_field(words, spec, value)`. -/
def set_reg_field (words : AddrMap) (spec : FieldSpec) (value : Nat) : Bool × AddrMap :=
  set_field_at words spec.reg_addr spec value

/-- `set_mtp_field(words, spec, value)`. -/
def set_mtp_field (words : AddrMap) (spec : FieldSpec) (value : Nat) : Bool × AddrMap :=
  set_field_at words spec.mtp_addr spec value

/-- The two address spaces a field can live in. -/
inductive Space where
  | reg
  | mtp
deriving DecidableEq, Repr

/-- The address a given space uses for a field: `spec.reg_addr` for register
space (possibly absent), `spec.mtp_addr` (always present) for MTP space. -/
def addrInSpace (sc : Space) (spec : FieldSpec) : Option Nat :=
  match sc with
  | .reg => spec.reg_addr
  | .mtp => some spec.mtp_addr

/-- Bit position of the selected byte inside the 16-bit word: the source
tests `byte_sel == "LSB"` and treats every other selector as MSB. -/
def byteBase (spec : FieldSpec) : Nat := if spec.byte_sel = "LSB" then 0 else 8

/-! ### Bit-level characterization lemmas for the field map -/

lemma mask_eq (w : Nat) : (1 <<< w) - 1 = 2 ^ w - 1 := by
  rw [Nat.one_shiftLeft]

lemma lit255 : (0xFF : Nat) = 2 ^ 8 - 1 := by decide

lemma lit65535 : (0xFFFF : Nat) = 2 ^ 16 - 1 := by decide

lemma lit65280 : (0xFF00 : Nat) = (2 ^ 8 - 1) <<< 8 := by decide

lemma dictGet_dictSet_same (m : AddrMap) (a w : Nat) : dictGet (dictSet m a w) a = w := by
  simp [dictGet, dictSet]

lemma dictSet_ne (m : AddrMap) (a w x : Nat) (h : x ≠ a) : dictSet m a w x = m x := by
  simp [dictSet, h]

/-- `get_field_at` at a present address extracts
`(word >>> (byteBase + lsb)) &&& (2^width - 1)` from the raw stored word. -/
lemma get_field_at_some (m : AddrMap) (a : Nat) (sp : FieldSpec)
    (hw : sp.lsb + sp.width ≤ 8) :
    get_field_at m (some a) sp =
      some ((dictGet m a >>> (byteBase sp + sp.lsb)) &&& (2 ^ sp.width - 1)) := by
  by_cases hsel : sp.byte_sel = "LSB"
  · simp only [get_field_at, get_byte, byteBase, hsel, if_pos, mask_eq, lit255, lit65535]
    congr 1
    apply Nat.eq_of_testBit_eq
    intro i
    simp only [Nat.testBit_and, Nat.testBit_shiftRight, Nat.testBit_two_pow_sub_one,
      Nat.zero_add]
    cases hbit : (dictGet m a).testBit (sp.lsb + i)
    · simp [hbit]
    · by_cases hiw : i < sp.width
      · simp [hbit, hiw, show sp.lsb + i < 8 by omega, show sp.lsb + i < 16 by omega]
      · simp [hbit, hiw]
  · simp only [get_field_at, get_byte, byteBase, hsel, ite_false, eq_self_iff_true,
      mask_eq, lit255, lit65535]
    congr 1
    apply Nat.eq_of_testBit_eq
    intro i
    simp only [Nat.testBit_and, Nat.testBit_shiftRight, Nat.testBit_two_pow_sub_one]
    rw [show 8 + sp.lsb + i = 8 + (sp.lsb + i) by omega]
    cases hbit : (dictGet m a).testBit (8 + (sp.lsb + i))
    · simp [hbit]
    · by_cases hiw : i < sp.width
      · simp [hbit, hiw, show sp.lsb + i < 8 by omega,
          show 8 + (sp.lsb + i) < 16 by omega]
      · simp [hbit, hiw]

/-- `set_field_at` at a present address succeeds and stores the word obtained
by clearing the field's bit range of the (16-bit-masked) old word and ORing in
the value truncated to the field width, shifted into place.  All bits outside
the field's range are therefore preserved. -/
lemma set_field_at_some (m : AddrMap) (a : Nat) (sp : FieldSpec) (v : Nat)
    (hw : sp.lsb + sp.width ≤ 8) :
    set_field_at m (some a) sp v =
      (true, dictSet m a
        (((dictGet m a &&& 0xFFFF) &&&
            (0xFFFF ^^^ ((2 ^ sp.width - 1) <<< (byteBase sp + sp.lsb)))) |||
          ((v % 2 ^ sp.width) <<< (byteBase sp + sp.lsb)))) := by
  by_cases hsel : sp.byte_sel = "LSB"
  · simp only [set_field_at, set_byte, get_byte, byteBase, hsel, if_pos, mask_eq,
      lit255, lit65535, lit65280, Nat.and_pow_two_sub_one_eq_mod]
    refine congrArg (fun w => (true, dictSet m a w)) ?_
    apply Nat.eq_of_testBit_eq
    intro i
    simp only [Nat.testBit_or, Nat.testBit_and, Nat.testBit_xor, Nat.testBit_shiftLeft,
      Nat.testBit_shiftRight, Nat.testBit_mod_two_pow, Nat.testBit_two_pow_sub_one,
      Nat.zero_add, ge_iff_le]
    cases hW : (dictGet m a).testBit i <;> cases hv : v.testBit (i - sp.lsb) <;>
      · rw [Bool.eq_iff_iff]
        simp only [← Bool.decide_and, ← Bool.decide_or, ← decide_not, Bool.false_and,
          Bool.and_false, Bool.true_and, Bool.and_true, Bool.or_false, Bool.false_or,
          bne_iff_ne, ne_eq, decide_eq_decide, Bool.and_eq_true, Bool.or_eq_true,
          decide_eq_true_eq, Bool.false_eq_true, Bool.true_eq_false, false_and, and_false,
          true_and, and_true, false_or, or_false, iff_false, false_iff, iff_true, true_iff,
          not_true, not_false_iff, not_and, not_or, not_not, not_lt, not_le]
        try omega
  · simp only [set_field_at, set_byte, get_byte, byteBase, hsel, ite_false,
      eq_self_iff_true, mask_eq, lit255, lit65535, lit65280,
      Nat.and_pow_two_sub_one_eq_mod]
    refine congrArg (fun w => (true, dictSet m a w)) ?_
    apply Nat.eq_of_testBit_eq
    intro i
    simp only [Nat.testBit_or, Nat.testBit_and, Nat.testBit_xor, Nat.testBit_shiftLeft,
      Nat.testBit_shiftRight, Nat.testBit_mod_two_pow, Nat.testBit_two_pow_sub_one,
      ge_iff_le, Nat.sub_sub]
    by_cases h8 : 8 ≤ i
    · rw [Nat.add_sub_cancel' h8]
      cases hW : (dictGet m a).testBit i <;> cases hv : v.testBit (i - (8 + sp.lsb)) <;>
        · rw [Bool.eq_iff_iff]
          simp only [← Bool.decide_and, ← Bool.decide_or, ← decide_not, Bool.false_and,
            Bool.and_false, Bool.true_and, Bool.and_true, Bool.or_false, Bool.false_or,
            bne_iff_ne, ne_eq, decide_eq_decide, Bool.and_eq_true, Bool.or_eq_true,
            decide_eq_true_eq, Bool.false_eq_true, Bool.true_eq_false, false_and, and_false,
            true_and, and_true, false_or, or_false, iff_false, false_iff, iff_true, true_iff,
            not_true, not_false_iff, not_and, not_or, not_not, not_lt, not_le]
          try omega
    · cases hW : (dictGet m a).testBit i <;> cases hv : v.testBit (i - (8 + sp.lsb)) <;>
        cases hW2 : (dictGet m a).testBit (8 + (i - 8)) <;>
          · rw [Bool.eq_iff_iff]
            simp only [← Bool.decide_and, ← Bool.decide_or, ← decide_not, Bool.false_and,
              Bool.and_false, Bool.true_and, Bool.and_true, Bool.or_false, Bool.false_or,
              bne_iff_ne, ne_eq, decide_eq_decide, Bool.and_eq_true, Bool.or_eq_true,
              decide_eq_true_eq, Bool.false_eq_true, Bool.true_eq_false, false_and, and_false,
              true_and, and_true, false_or, or_false, iff_false, false_iff, iff_true, true_iff,
              not_true, not_false_iff, not_and, not_or, not_not, not_lt, not_le]
            try omega

/-- Extracting the field bits back out of a word produced by the
clear-then-OR insertion returns the inserted (width-truncated) value. -/
lemma extract_insert (x v s wd : Nat) (hs : s + wd ≤ 16) :
    ((((x &&& (0xFFFF ^^^ ((2 ^ wd - 1) <<< s))) ||| ((v % 2 ^ wd) <<< s)) >>> s) &&&
        (2 ^ wd - 1)) = v % 2 ^ wd := by
  rw [lit65535]
  apply Nat.eq_of_testBit_eq
  intro i
  simp only [Nat.testBit_or, Nat.testBit_and, Nat.testBit_xor, Nat.testBit_shiftLeft,
    Nat.testBit_shiftRight, Nat.testBit_mod_two_pow, Nat.testBit_two_pow_sub_one,
    ge_iff_le, Nat.le_add_right, Nat.add_sub_cancel_left, decide_True, Bool.true_and]
  cases hx : x.testBit (s + i) <;> cases hv : v.testBit i <;>
    · rw [Bool.eq_iff_iff]
      simp only [← Bool.decide_and, ← Bool.decide_or, ← decide_not, Bool.false_and,
        Bool.and_false, Bool.true_and, Bool.and_true, Bool.or_false, Bool.false_or,
        bne_iff_ne, ne_eq, decide_eq_decide, Bool.and_eq_true, Bool.or_eq_true,
        decide_eq_true_eq, Bool.false_eq_true, Bool.true_eq_false, false_and, and_false,
        true_and, and_true, false_or, or_false, iff_false, false_iff, iff_true, true_iff,
        not_true, not_false_iff, not_and, not_or, not_not, not_lt, not_le]
      try omega

/-- The field's byte position plus its width stays within the 16-bit word. -/
lemma byteBase_add_le (sp : FieldSpec) (hw : sp.lsb + sp.width ≤ 8) :
    byteBase sp + sp.lsb + sp.width ≤ 16 := by
  unfold byteBase
  split <;> omega

/-- Reading a field back directly after writing it returns the
width-truncated written value. -/
lemma get_after_set (m : AddrMap) (a : Nat) (sp : FieldSpec) (v : Nat)
    (hw : sp.lsb + sp.width ≤ 8) :
    get_field_at (set_field_at m (some a) sp v).2 (some a) sp =
      some (v % 2 ^ sp.width) := by
  rw [set_field_at_some m a sp v hw, get_field_at_some _ _ _ hw]
  simp only [dictGet_dictSet_same]
  have hs : byteBase sp + sp.lsb + sp.width ≤ 16 := byteBase_add_le sp hw
  rw [extract_insert _ v (byteBase sp + sp.lsb) sp.width (by omega)]

/-- Every entry of the field table keeps its field inside the selected byte. -/
lemma field_specs_width_le : ∀ sp ∈ FIELD_SPECS, sp.lsb + sp.width ≤ 8 := by decide

/-- The `FG_X` table entry (used to instantiate theorems). -/
def FG_X_SPEC : FieldSpec := ⟨"FG_X", some 0x20, 0x00, "LSB", 3, 5⟩

/-- The `DIS_DIAG` table entry (MTP-only: `reg_addr` is `None`). -/
def DIS_DIAG_SPEC : FieldSpec := ⟨"DIS_DIAG", none, 0x0C, "LSB", 1, 1⟩

/-- **C1.** For every `FieldSpec` in the field table, every address space in
which the field has an address, and every value `v < 2^width`: writing `v`
with `set_field_at` and reading the same field back with `get_field_at`
returns exactly `v`; moreover the stored 16-bit word after the write equals
the old word (masked to 16 bits) with only the field's bit range replaced —
`(old &&& 0xFFFF) &&& (0xFFFF ^^^ (mask <<< shift)) ||| (v <<< shift)` —
so every bit outside the field's bit range (the other byte, and neighboring
fields packed in the same byte) is preserved. -/
theorem C1_field_roundtrip :
    ∀ sp ∈ FIELD_SPECS, ∀ (sc : Space) (m : AddrMap) (a v : Nat),
      addrInSpace sc sp = some a → v < 2 ^ sp.width →
      get_field_at (set_field_at m (addrInSpace sc sp) sp v).2 (addrInSpace sc sp) sp =
          some v ∧
        dictGet (set_field_at m (addrInSpace sc sp) sp v).2 a =
          ((dictGet m a &&& 0xFFFF) &&&
              (0xFFFF ^^^ ((2 ^ sp.width - 1) <<< (byteBase sp + sp.lsb)))) |||
            (v <<< (byteBase sp + sp.lsb)) := by
  intro sp hsp sc m a v ha hv
  have hw := field_specs_width_le sp hsp
  have hmod : v % 2 ^ sp.width = v := Nat.mod_eq_of_lt hv
  constructor
  · rw [ha, get_after_set m a sp v hw, hmod]
  · rw [ha, set_field_at_some m a sp v hw]
    simp only [dictGet_dictSet_same, hmod]

/-- Witness for C1: writing 21 into `FG_X` (bits 3..7 of the low byte of
register 0x20) over an old word 0xABCD reads back 21 and stores 0xABAD,
preserving the high byte 0xAB and the neighboring `RG_X` bits 0b101. -/
theorem C1_field_roundtrip_witness :
    FG_X_SPEC ∈ FIELD_SPECS ∧
      addrInSpace Space.reg FG_X_SPEC = some 0x20 ∧
      21 < 2 ^ FG_X_SPEC.width ∧
      get_field_at
          (set_field_at (dictSet dictEmpty 0x20 0xABCD) (addrInSpace Space.reg FG_X_SPEC)
            FG_X_SPEC 21).2
          (addrInSpace Space.reg FG_X_SPEC) FG_X_SPEC = some 21 ∧
      dictGet
          (set_field_at (dictSet dictEmpty 0x20 0xABCD) (addrInSpace Space.reg FG_X_SPEC)
            FG_X_SPEC 21).2 0x20 = 0xABAD := by
  have h := C1_field_roundtrip FG_X_SPEC (by decide) Space.reg
    (dictSet dictEmpty 0x20 0xABCD) 0x20 21 (by decide) (by decide)
  refine ⟨by decide, by decide, by decide, h.1, ?_⟩
  rw [h.2]
  decide

/-- **C2.** For every table `FieldSpec`, space and integer value:
if the required address for that space is absent (`reg_addr` is `None`, i.e.
an MTP-only field written through its register address) the write returns
`false` and leaves the address space completely unmutated; otherwise it
returns `true` and stores, at the field's address, the old word with the
field's bit range replaced by the value truncated to the field width
(`v % 2^width`: values wider than the width keep their low bits and are
never rejected). -/
theorem C2_write_semantics :
    ∀ sp ∈ FIELD_SPECS, ∀ (sc : Space) (m : AddrMap) (v : Nat),
      (addrInSpace sc sp = none → set_field_at m (addrInSpace sc sp) sp v = (false, m)) ∧
      (∀ a, addrInSpace sc sp = some a →
        set_field_at m (addrInSpace sc sp) sp v =
          (true, dictSet m a
            (((dictGet m a &&& 0xFFFF) &&&
                (0xFFFF ^^^ ((2 ^ sp.width - 1) <<< (byteBase sp + sp.lsb)))) |||
              ((v % 2 ^ sp.width) <<< (byteBase sp + sp.lsb))))) := by
  intro sp hsp sc m v
  have hw := field_specs_width_le sp hsp
  constructor
  · intro h
    rw [h]
    rfl
  · intro a ha
    rw [ha, set_field_at_some m a sp v hw]

/-- Witness for C2: writing `DIS_DIAG` through register space fails with no
effect (its `reg_addr` is `None`); writing the out-of-range value 5 through
MTP space succeeds and stores `5 % 2 = 1` shifted to bit 1, i.e. the word 2. -/
theorem C2_write_semantics_witness :
    DIS_DIAG_SPEC ∈ FIELD_SPECS ∧
      addrInSpace Space.reg DIS_DIAG_SPEC = none ∧
      set_field_at dictEmpty (addrInSpace Space.reg DIS_DIAG_SPEC) DIS_DIAG_SPEC 1 =
        (false, dictEmpty) ∧
      addrInSpace Space.mtp DIS_DIAG_SPEC = some 0x0C ∧
      (set_field_at dictEmpty (addrInSpace Space.mtp DIS_DIAG_SPEC) DIS_DIAG_SPEC 5).1 =
          true ∧
      (set_field_at dictEmpty (addrInSpace Space.mtp DIS_DIAG_SPEC) DIS_DIAG_SPEC 5).2
          0x0C = some 2 := by
  have h1 := (C2_write_semantics DIS_DIAG_SPEC (by decide) Space.reg dictEmpty 1).1 rfl
  have h2 := (C2_write_semantics DIS_DIAG_SPEC (by decide) Space.mtp dictEmpty 5).2
    0x0C rfl
  refine ⟨by decide, rfl, h1, rfl, ?_, ?_⟩
  · rw [h2]
  · rw [h2]
    decide

/-- **C3.** For every table `FieldSpec` and space, `get_field_at` returns
`None` exactly when the required address for that space is absent; otherwise
it returns `(word >>> (byte_sel*8 + bit_offset)) &&& ((1 <<< width) - 1)` of
the raw stored word, an address not yet present reading as word 0.  In
particular reading the MTP-only field `DIS_DIAG` through register space
returns `None` for every register map, regardless of MTP-space contents. -/
theorem C3_read_semantics :
    (∀ sp ∈ FIELD_SPECS, ∀ (sc : Space) (m : AddrMap),
      (get_field_at m (addrInSpace sc sp) sp = none ↔ addrInSpace sc sp = none) ∧
      (∀ a, addrInSpace sc sp = some a →
        get_field_at m (addrInSpace sc sp) sp =
            some ((dictGet m a >>> (byteBase sp + sp.lsb)) &&& (2 ^ sp.width - 1)) ∧
          (m a = none → get_field_at m (addrInSpace sc sp) sp = some 0))) ∧
    (∀ m : AddrMap, get_reg_field m DIS_DIAG_SPEC = none) := by
  constructor
  · intro sp hsp sc m
    have hw := field_specs_width_le sp hsp
    constructor
    · cases ha : addrInSpace sc sp with
      | none => simp [get_field_at]
      | some a => rw [get_field_at_some m a sp hw]; simp
    · intro a ha
      rw [ha]
      refine ⟨get_field_at_some m a sp hw, ?_⟩
      intro hnone
      rw [get_field_at_some m a sp hw]
      simp [dictGet, hnone]
  · intro m
    rfl

/-- Witness for C3: on a register map that even holds a word at `DIS_DIAG`'s
MTP address, reading `DIS_DIAG` through register space is `None`; reading it
through MTP space on an empty map gives the default 0; reading `FG_X` at a
stored word 0xABCD extracts bits 3..7 of the low byte, 25. -/
theorem C3_read_semantics_witness :
    FG_X_SPEC ∈ FIELD_SPECS ∧
      addrInSpace Space.mtp FG_X_SPEC = some 0x00 ∧
      get_field_at (dictSet dictEmpty 0x00 0xABCD) (addrInSpace Space.mtp FG_X_SPEC)
          FG_X_SPEC = some ((dictGet (dictSet dictEmpty 0x00 0xABCD) 0x00 >>>
            (byteBase FG_X_SPEC + FG_X_SPEC.lsb)) &&& (2 ^ FG_X_SPEC.width - 1)) ∧
      get_reg_field (dictSet dictEmpty 0x0C 0xFFFF) DIS_DIAG_SPEC = none := by
  have h := ((C3_read_semantics.1 FG_X_SPEC (by decide) Space.mtp
    (dictSet dictEmpty 0x00 0xABCD)).2 0x00 rfl).1
  exact ⟨by decide, rfl, h, C3_read_semantics.2 (dictSet dictEmpty 0x0C 0xFFFF)⟩

/-- The field table does not have 19 entries: the source lists 20
`FieldSpec` rows (13 shared REG/MTP fields plus 7 MTP-only fields). -/
theorem C9_field_table_not_19 :
    FIELD_SPECS.length = 20 ∧ FIELD_SPECS.length ≠ 19 := by decide

/-- **C9 (amended: the table has 20 entries, not 19).** The static field
table is fixed at 20 entries, and every entry satisfies the declared
constraints: the field fits in its byte (`lsb + width ≤ 8`, width at
least 1), `reg_addr`, when present, is even and in `[0x20, 0x2E]`,
`mtp_addr` is even and in `[0x00, 0x1E]`, and no two distinct fields
sharing the same byte of the same word (in either space) overlap in bit
range. -/
theorem C9_field_table_invariants :
    FIELD_SPECS.length = 20 ∧
      (∀ sp ∈ FIELD_SPECS,
        sp.lsb + sp.width ≤ 8 ∧ 1 ≤ sp.width ∧
          sp.mtp_addr % 2 = 0 ∧ sp.mtp_addr ≤ 0x1E ∧
          (∀ ra, sp.reg_addr = some ra → ra % 2 = 0 ∧ 0x20 ≤ ra ∧ ra ≤ 0x2E)) ∧
      FIELD_SPECS.Pairwise (fun s1 s2 =>
        (s1.reg_addr ≠ none ∧ s1.reg_addr = s2.reg_addr ∧ s1.byte_sel = s2.byte_sel →
          s1.lsb + s1.width ≤ s2.lsb ∨ s2.lsb + s2.width ≤ s1.lsb) ∧
        (s1.mtp_addr = s2.mtp_addr ∧ s1.byte_sel = s2.byte_sel →
          s1.lsb + s1.width ≤ s2.lsb ∨ s2.lsb + s2.width ≤ s1.lsb)) := by
  refine ⟨by decide, by decide, by decide⟩

/-- Witness for C9: the constraints instantiated at the `FG_X` entry. -/
theorem C9_field_table_invariants_witness :
    FG_X_SPEC ∈ FIELD_SPECS ∧
      FG_X_SPEC.lsb + FG_X_SPEC.width ≤ 8 ∧ 1 ≤ FG_X_SPEC.width ∧
        FG_X_SPEC.mtp_addr % 2 = 0 ∧ FG_X_SPEC.mtp_addr ≤ 0x1E ∧
        (∀ ra, FG_X_SPEC.reg_addr = some ra → ra % 2 = 0 ∧ 0x20 ≤ ra ∧ ra ≤ 0x2E) :=
  ⟨by decide, C9_field_table_invariants.2.1 FG_X_SPEC (by decide)⟩

/-! ### Line decoder

The Python decoder classifies each received line in `on_line_rx`:
first an exact (stripped) match of `"90381"`, then the case-insensitive
regex `OUT1\s+(\d+)\s+OUT2\s+(\d+)` via `re.search`, then a scan for all
non-overlapping matches of `([0-9A-Fa-f]+)\s+([0-9A-Fa-f]+)` via
`re.finditer`.  In both regexes every quantified character class (`\s`,
`\d`, `[0-9A-Fa-f]`) is disjoint from the character that must follow its
run, so greedy matching never backtracks and the regexes are equivalent to
the deterministic maximal-munch parsers below; `search`/`finditer` try
each start position left to right, which the scanners below reproduce. -/

/-- Python regex class `\s` over ASCII. -/
def pyIsSpace (c : Char) : Bool :=
  c = ' ' || c = '\t' || c = '\n' || c = '\r' || c = '\x0b' || c = '\x0c'

/-- The character class `[0-9A-Fa-f]`. -/
def isHexDig (c : Char) : Bool :=
  c.isDigit || ('A' ≤ c && c ≤ 'F') || ('a' ≤ c && c ≤ 'f')

/-- Value of a decimal digit. -/
def decDigitVal (c : Char) : Nat := c.toNat - 48

/-- Value of a hex digit. -/
def hexDigitVal (c : Char) : Nat :=
  if c.isDigit then c.toNat - 48
  else if 'A' ≤ c && c ≤ 'F' then c.toNat - 55
  else c.toNat - 87

/-- `int(ds, 10)` on a digit run. -/
def decVal (ds : List Char) : Nat := ds.foldl (fun acc c => 10 * acc + decDigitVal c) 0

/-- `int(ds, 16)` on a hex-digit run. -/
def hexVal (ds : List Char) : Nat := ds.foldl (fun acc c => 16 * acc + hexDigitVal c) 0

/-- Greedy one-or-more run of characters satisfying `p` (a `+`-quantified
character class): fails if the first character does not match. -/
def span1 (p : Char → Bool) (cs : List Char) : Option (List Char × List Char) :=
  match cs.span p with
  | ([], _) => none
  | (tk, rest) => some (tk, rest)

/-- Case-insensitive literal match (regex `re.IGNORECASE` on an ASCII
literal), returning the rest of the input. -/
def chompCI : List Char → List Char → Option (List Char)
  | [], cs => some cs
  | _ :: _, [] => none
  | p :: ps, c :: cs => if c.toLower = p.toLower then chompCI ps cs else none

/-- One attempt of `MEAS_RE` anchored at the start of `cs`. -/
def measMatchAt (cs : List Char) : Option (Nat × Nat) := do
  let r1 ← chompCI "OUT1".toList cs
  let (_, r2) ← span1 pyIsSpace r1
  let (d1, r3) ← span1 Char.isDigit r2
  let (_, r4) ← span1 pyIsSpace r3
  let r5 ← chompCI "OUT2".toList r4
  let (_, r6) ← span1 pyIsSpace r5
  let (d2, _) ← span1 Char.isDigit r6
  some (decVal d1, decVal d2)

/-- `MEAS_RE.search`: try each start position left to right. -/
def measSearch : List Char → Option (Nat × Nat)
  | [] => none
  | c :: cs =>
    match measMatchAt (c :: cs) with
    | some r => some r
    | none => measSearch cs

/-- `parse_measurement(line)`: the two captured unsigned integers, if the
measurement pattern occurs anywhere in the line. -/
def parse_measurement (line : String) : Option (Nat × Nat) := measSearch line.toList

/-- One attempt of `HEX_PAIR_RE` anchored at the start of `cs`; on success
also returns the unconsumed rest (where `finditer` resumes). -/
def hexPairAt (cs : List Char) : Option ((Nat × Nat) × List Char) := do
  let (d1, r1) ← span1 isHexDig cs
  let (_, r2) ← span1 pyIsSpace r1
  let (d2, r3) ← span1 isHexDig r2
  some ((hexVal d1, hexVal d2), r3)

/-- `HEX_PAIR_RE.finditer`, fueled by the input length (every step consumes
at least one character, so `cs.length` fuel is always enough). -/
def hexPairsAux : Nat → List Char → List (Nat × Nat)
  | 0, _ => []
  | _ + 1, [] => []
  | fuel + 1, c :: cs =>
    match hexPairAt (c :: cs) with
    | some (pr, rest) => pr :: hexPairsAux fuel rest
    | none => hexPairsAux fuel cs

/-- `parse_hex_pairs_line(line)`: all non-overlapping `(addr, word)` hex
pairs, each component parsed base-16 (no masking here). -/
def parse_hex_pairs_line (line : String) : List (Nat × Nat) :=
  hexPairsAux line.toList.length line.toList

/-- Python `str.strip()` (ASCII whitespace). -/
def pyStrip (cs : List Char) : List Char :=
  ((cs.dropWhile pyIsSpace).reverse.dropWhile pyIsSpace).reverse

/-- The decoder's three-way classification result. -/
inductive LineEvent where
  | identify
  | measurement (out1 out2 : Nat)
  | hexPairs (ps : List (Nat × Nat))
deriving DecidableEq, Repr

/-- The classification order of `on_line_rx`: Identify first, then
Measurement, then hex pairs (an empty pair list is an inert line). -/
def classifyLine (line : String) : LineEvent :=
  if pyStrip line.toList = "90381".toList then .identify
  else
    match parse_measurement line with
    | some (o1, o2) => .measurement o1 o2
    | none => .hexPairs (parse_hex_pairs_line line)

example : classifyLine "90381" = .identify := by decide
example : parse_measurement "OUT1 120 OUT2 340" = some (120, 340) := by decide
example : parse_hex_pairs_line "20 1234 22 00FF" = [(0x20, 0x1234), (0x22, 0xFF)] := by decide
example : parse_hex_pairs_line "OUT1 120 OUT2 340" = [(1, 0x120), (2, 0x340)] := by decide

/-- The hex-pair routing of `on_line_rx`: an address `≥ 0x20` is stored into
register space, a smaller address into MTP space; the stored word is masked
to 16 bits, the address is used exactly as decoded. -/
def routePair (regWords mtpWords : AddrMap) (p : Nat × Nat) : AddrMap × AddrMap :=
  if 0x20 ≤ p.1 then (dictSet regWords p.1 (p.2 &&& 0xFFFF), mtpWords)
  else (regWords, dictSet mtpWords p.1 (p.2 &&& 0xFFFF))

/-- The `for addr, word in pairs` loop of `on_line_rx`. -/
def routePairs (regWords mtpWords : AddrMap) (ps : List (Nat × Nat)) : AddrMap × AddrMap :=
  ps.foldl (fun st p => routePair st.1 st.2 p) (regWords, mtpWords)

/-- The full effect of `on_line_rx` on the two address spaces: identify and
measurement lines leave them unchanged; hex-pair lines route every decoded
pair. -/
def on_line_rx_maps (regWords mtpWords : AddrMap) (line : String) : AddrMap × AddrMap :=
  match classifyLine line with
  | .identify => (regWords, mtpWords)
  | .measurement _ _ => (regWords, mtpWords)
  | .hexPairs ps => routePairs regWords mtpWords ps

/-- **C4.** Classification runs Identify, then Measurement, then hex pairs,
and the first match wins: the literal token `"90381"` classifies as
Identify only; `"OUT1 120 OUT2 340"` classifies as Measurement 120 340 and
is never reinterpreted as hex pairs even though its hex-digit pairs scan is
non-empty; in general any line whose stripped text is not the
identification token and which matches the measurement pattern classifies
as that Measurement. -/
theorem C4_classification_order :
    classifyLine "90381" = .identify ∧
      classifyLine "OUT1 120 OUT2 340" = .measurement 120 340 ∧
      parse_hex_pairs_line "OUT1 120 OUT2 340" ≠ [] ∧
      (∀ (line : String) (o1 o2 : Nat),
        pyStrip line.toList ≠ "90381".toList → parse_measurement line = some (o1, o2) →
        classifyLine line = .measurement o1 o2) := by
  refine ⟨by decide, by decide, by decide, ?_⟩
  intro line o1 o2 hne hm
  unfold classifyLine
  rw [if_neg hne, hm]

/-- Witness for C4: the lowercase line `"out1 7 out2 9"` is not the
identification token, matches the case-insensitive measurement pattern and
classifies as Measurement 7 9. -/
theorem C4_classification_order_witness :
    pyStrip "out1 7 out2 9".toList ≠ "90381".toList ∧
      parse_measurement "out1 7 out2 9" = some (7, 9) ∧
      classifyLine "out1 7 out2 9" = .measurement 7 9 :=
  ⟨by decide, by decide,
    C4_classification_order.2.2.2 "out1 7 out2 9" 7 9 (by decide) (by decide)⟩

/-- The decoded components of a hex-pairs line are *not* masked to 16 bits:
the line `"10000 1FFFF"` decodes to the pair `(0x10000, 0x1FFFF)`, whose
address component exceeds `2^16 - 1` and is routed and stored unmasked
(register space at key 0x10000, not MTP space at the masked address 0). -/
theorem C5_hex_component_not_masked :
    parse_hex_pairs_line "10000 1FFFF" = [(0x10000, 0x1FFFF)] ∧
      ¬(0x10000 < 2 ^ 16) ∧
      (routePairs dictEmpty dictEmpty (parse_hex_pairs_line "10000 1FFFF")).1 0x10000 =
          some 0xFFFF ∧
      (routePairs dictEmpty dictEmpty (parse_hex_pairs_line "10000 1FFFF")).2 0x0000 =
          none := by
  refine ⟨by decide, by decide, by decide, by decide⟩

/-- **C5 (amended: only the stored word is masked; addresses are used
unmasked).** For every line not classified as Identify or Measurement the
decoder extracts all non-overlapping `<hex-digits> <whitespace> <hex-digits>`
occurrences as `(address, word)` pairs, each component parsed as a base-16
integer; when a pair is stored into an address space the word is reduced
mod `2^16`, while the address is used exactly as decoded. -/
theorem C5_hex_pairs_semantics :
    (∀ (line : String) (ps : List (Nat × Nat)),
      classifyLine line = .hexPairs ps → ps = parse_hex_pairs_line line) ∧
      (∀ (r mtp : AddrMap) (a w : Nat),
        routePair r mtp (a, w) =
          if 0x20 ≤ a then (dictSet r a (w % 2 ^ 16), mtp)
          else (r, dictSet mtp a (w % 2 ^ 16))) ∧
      parse_hex_pairs_line "10000 1FFFF" = [(65536, 131071)] := by
  refine ⟨?_, ?_, by decide⟩
  · intro line ps h
    unfold classifyLine at h
    split at h
    · cases h
    · split at h
      · cases h
      · cases h
        rfl
  · intro r mtp a w
    rw [routePair, lit65535, Nat.and_pow_two_sub_one_eq_mod]

/-- Witness for C5 (amended): the inert-looking line `"10000 1FFFF"`
classifies as its hex-pair scan, and routing that single decoded pair
stores the word masked to 16 bits at the unmasked address in register
space. -/
theorem C5_hex_pairs_semantics_witness :
    classifyLine "10000 1FFFF" = .hexPairs (parse_hex_pairs_line "10000 1FFFF") ∧
      routePair dictEmpty dictEmpty (0x10000, 0x1FFFF) =
        (dictSet dictEmpty 0x10000 (0x1FFFF % 2 ^ 16), dictEmpty) := by
  constructor
  · have h := C5_hex_pairs_semantics.1 "10000 1FFFF"
    decide
  · have h := C5_hex_pairs_semantics.2.1 dictEmpty dictEmpty 0x10000 0x1FFFF
    rw [h, if_pos (by decide)]

/-- **C6.** A decoded `(address, word)` pair is routed by address alone:
`address ≥ 0x20` goes to register space, `address < 0x20` to MTP space.
The line `"20 1234 22 00FF"` updates register space at 0x20 and 0x22 and
leaves MTP space untouched; the line `"08 00AA"` updates MTP space at
0x08 and leaves register space untouched. -/
theorem C6_address_routing :
    (∀ (r mtp : AddrMap) (a w : Nat), 0x20 ≤ a →
      routePair r mtp (a, w) = (dictSet r a (w &&& 0xFFFF), mtp)) ∧
      (∀ (r mtp : AddrMap) (a w : Nat), a < 0x20 →
        routePair r mtp (a, w) = (r, dictSet mtp a (w &&& 0xFFFF))) ∧
      (on_line_rx_maps dictEmpty dictEmpty "20 1234 22 00FF").1 0x20 = some 0x1234 ∧
      (on_line_rx_maps dictEmpty dictEmpty "20 1234 22 00FF").1 0x22 = some 0x00FF ∧
      (on_line_rx_maps dictEmpty dictEmpty "20 1234 22 00FF").2 = dictEmpty ∧
      (on_line_rx_maps dictEmpty dictEmpty "08 00AA").2 0x08 = some 0x00AA ∧
      (on_line_rx_maps dictEmpty dictEmpty "08 00AA").1 = dictEmpty := by
  refine ⟨?_, ?_, by decide, by decide, rfl, by decide, rfl⟩
  · intro r mtp a w h
    simp [routePair, h]
  · intro r mtp a w h
    simp [routePair, Nat.not_le_of_lt h]

/-- Witness for C6: routing the single pairs `(0x20, 0x1234)` and
`(0x08, 0x00AA)` lands in register space and MTP space respectively. -/
theorem C6_address_routing_witness :
    (0x20 : Nat) ≤ 0x20 ∧
      routePair dictEmpty dictEmpty (0x20, 0x1234) =
        (dictSet dictEmpty 0x20 (0x1234 &&& 0xFFFF), dictEmpty) ∧
      (0x08 : Nat) < 0x20 ∧
      routePair dictEmpty dictEmpty (0x08, 0x00AA) =
        (dictEmpty, dictSet dictEmpty 0x08 (0x00AA &&& 0xFFFF)) :=
  ⟨by decide, C6_address_routing.1 dictEmpty dictEmpty 0x20 0x1234 (by decide),
    by decide, C6_address_routing.2.1 dictEmpty dictEmpty 0x08 0x00AA (by decide)⟩

/-! ### Programming sequencer (`_send_memory_sequence`) -/

/-- Decimal digit characters, fueled (each step strips one digit, and any
`fuel > n` is enough since `n / 10 < n` for `n ≥ 10`). -/
def decDigitsAux : Nat → Nat → List Char
  | 0, _ => []
  | fuel + 1, n =>
    if n < 10 then [Char.ofNat (48 + n)]
    else decDigitsAux fuel (n / 10) ++ [Char.ofNat (48 + n % 10)]

/-- Decimal digit characters of `n` (what Python `str(n)` prints for a
non-negative int). -/
def decDigits (n : Nat) : List Char := decDigitsAux (n + 1) n

/-- Python `f"{int(w):5d}"` for a non-negative word: the decimal digits
right-aligned in a field of minimum width 5, left-padded with spaces. -/
def formatDec5 (w : Nat) : List Char :=
  List.replicate (5 - (decDigits w).length) ' ' ++ decDigits w

/-- The byte output of the per-word loop in `_send_memory_sequence`: for
each word, its 5-character field then the single accept character `y`. -/
def sendWordsBytes : List Nat → List Char
  | [] => []
  | w :: ws => formatDec5 w ++ ('y' :: sendWordsBytes ws)

/-- `_send_memory_sequence(words, command)`: raises `ValueError` unless
there are exactly 8 words — the check is the first statement, before any
byte is sent — and otherwise emits the single mode-command character
followed by the per-word fields and accept characters, with nothing after
the 8th pair.  Pacing delays are not modelled. -/
def send_memory_sequence (words : List Nat) (command : Char) :
    Except String (List Char) :=
  if words.length ≠ 8 then .error "Need exactly 8 words for memory sequence."
  else .ok (command :: sendWordsBytes words)

lemma decDigitsAux_length_le :
    ∀ (fuel n k : Nat), n < 10 ^ (k + 1) → n < fuel →
      (decDigitsAux fuel n).length ≤ k + 1 := by
  intro fuel
  induction fuel with
  | zero => intro n k _ h; omega
  | succ fuel ih =>
    intro n k hk hf
    by_cases h10 : n < 10
    · rw [decDigitsAux, if_pos h10]
      simp
    · rw [decDigitsAux, if_neg h10]
      have hkpos : 1 ≤ k := by
        rcases Nat.eq_zero_or_pos k with h0 | h1
        · subst h0; rw [pow_one] at hk; omega
        · exact h1
      have hdiv : n / 10 < 10 ^ (k - 1 + 1) := by
        apply Nat.div_lt_of_lt_mul
        rw [← pow_succ']
        have : k - 1 + 1 + 1 = k + 1 := by omega
        rw [this]
        exact hk
      have hdivf : n / 10 < fuel := by
        have := Nat.div_lt_self (by omega : 0 < n) (by omega : 1 < 10)
        omega
      have := ih (n / 10) (k - 1) hdiv hdivf
      simp only [List.length_append, List.length_cons, List.length_nil]
      omega

lemma decDigits_length_le (k n : Nat) (h : n < 10 ^ (k + 1)) :
    (decDigits n).length ≤ k + 1 :=
  decDigitsAux_length_le (n + 1) n k h (by omega)

/-- Any value below 100000 — in particular any 16-bit word — formats as an
exactly 5-character field. -/
lemma formatDec5_length (w : Nat) (h : w < 100000) : (formatDec5 w).length = 5 := by
  have h5 : (decDigits w).length ≤ 5 := by
    have : w < 10 ^ (4 + 1) := by norm_num at h ⊢; omega
    exact decDigits_length_le 4 w this
  simp only [formatDec5, List.length_append, List.length_replicate]
  omega

lemma sendWordsBytes_eq (ws : List Nat) :
    sendWordsBytes ws = (ws.map (fun w => formatDec5 w ++ ['y'])).flatten := by
  induction ws with
  | nil => rfl
  | cons w ws ih => simp [sendWordsBytes, ih]

lemma sendWordsBytes_length (ws : List Nat) (h : ∀ w ∈ ws, w < 100000) :
    (sendWordsBytes ws).length = 6 * ws.length := by
  induction ws with
  | nil => rfl
  | cons w ws ih =>
    have hw : w < 100000 := h w (by simp)
    have hrest := ih (fun x hx => h x (by simp [hx]))
    simp only [sendWordsBytes, List.length_append, List.length_cons, List.length_nil,
      formatDec5_length w hw]
    omega

/-- **C7.** The programming sequencer requires exactly 8 words — any other
count is rejected with an error and no byte is emitted — and for any list
of 8 (16-bit) words the bytes emitted after the single mode-command
character are exactly eight repetitions of a 5-character space-padded
decimal field followed directly by the accept character `y`, with no
separator and nothing after the 8th pair (total length `1 + 8*6 = 49`). -/
theorem C7_memory_sequence_encoding :
    (∀ (ws : List Nat) (c : Char), ws.length ≠ 8 →
      send_memory_sequence ws c = .error "Need exactly 8 words for memory sequence.") ∧
      (∀ (ws : List Nat) (c : Char), ws.length = 8 → (∀ w ∈ ws, w < 2 ^ 16) →
        send_memory_sequence ws c =
            .ok (c :: (ws.map (fun w => formatDec5 w ++ ['y'])).flatten) ∧
          (∀ w ∈ ws, (formatDec5 w).length = 5) ∧
          (c :: sendWordsBytes ws).length = 49) := by
  constructor
  · intro ws c h
    rw [send_memory_sequence, if_pos h]
  · intro ws c hlen hbound
    have hb : ∀ w ∈ ws, w < 100000 := fun w hw => by
      have := hbound w hw
      omega
    refine ⟨?_, fun w hw => formatDec5_length w (hb w hw), ?_⟩
    · rw [send_memory_sequence, if_neg (by omega), sendWordsBytes_eq]
    · simp only [List.length_cons, sendWordsBytes_length ws hb, hlen]

/-- Witness for C7: a 3-word list is rejected with the error; the spec's
example list `[1,...,8]` emits `W` then eight `"    n"` fields each followed
directly by `y` and nothing else. -/
theorem C7_memory_sequence_encoding_witness :
    ([1, 2, 3] : List Nat).length ≠ 8 ∧
      send_memory_sequence [1, 2, 3] 'W' =
        .error "Need exactly 8 words for memory sequence." ∧
      ([1, 2, 3, 4, 5, 6, 7, 8] : List Nat).length = 8 ∧
      send_memory_sequence [1, 2, 3, 4, 5, 6, 7, 8] 'W' =
        .ok "W    1y    2y    3y    4y    5y    6y    7y    8y".toList := by
  refine ⟨by decide, C7_memory_sequence_encoding.1 [1, 2, 3] 'W' (by decide),
    by decide, ?_⟩
  have h := (C7_memory_sequence_encoding.2 [1, 2, 3, 4, 5, 6, 7, 8] 'W' rfl
    (by decide)).1
  rw [h]
  exact congrArg Except.ok (by decide)

/-! ### Session state machine (`MainWindow`)

The session state is the part of `MainWindow` the claims concern:
connection flag, the two read flags, the enabled state of the two program
buttons (maintained by `_update_program_buttons`), the two address spaces
and the bytes written to the serial port.  Button-click events reach their
handlers only while the button is enabled — Qt does not deliver clicks to
a disabled button — which is exactly how the source gates programming. -/

structure UiState where
  connected : Bool
  regRead : Bool
  mtpRead : Bool
  progRegEnabled : Bool
  progMtpEnabled : Bool
  regWords : AddrMap
  mtpWords : AddrMap
  out : List Char

/-- `MainWindow.__init__`: disconnected, nothing read, program buttons
disabled, both address spaces empty, nothing sent. -/
def uiInit : UiState :=
  ⟨false, false, false, false, false, dictEmpty, dictEmpty, []⟩

/-- `_update_program_buttons`: program REG needs connected and
registers-read; program MTP needs connected and MTP-read. -/
def updateProgramButtons (s : UiState) : UiState :=
  { s with progRegEnabled := s.connected && s.regRead,
           progMtpEnabled := s.connected && s.mtpRead }

/-- `send_cmd(c)`: one character, written only while connected. -/
def sendCmd (s : UiState) (c : Char) : UiState :=
  if s.connected then { s with out := s.out ++ [c] } else s

/-- `worker.send_text(...)`: bytes reach the wire only while the port is
open (after `close()` the worker's port is gone and writes are dropped). -/
def sendText (s : UiState) (bs : List Char) : UiState :=
  if s.connected then { s with out := s.out ++ bs } else s

/-- `_sensing_mode_presets`. -/
def sensingModePresets : List (String × (Nat × Nat × Nat)) :=
  [("X/Y mode", (0, 1, 0)), ("Y/X mode", (1, 0, 0)), ("X/Z mode", (0, 2, 2)),
    ("Z/X mode", (2, 0, 2)), ("Y/Z mode", (1, 2, 1)), ("Z/Y mode", (2, 1, 1))]

/-- One loop iteration of `_on_sensing_mode_selected`. -/
def applyPresetSpec (regWords : AddrMap) (sp : FieldSpec) (vals : Nat × Nat × Nat) :
    AddrMap :=
  if sp.name = "AXIS_CH1" then (set_reg_field regWords sp vals.1).2
  else if sp.name = "AXIS_CH2" then (set_reg_field regWords sp vals.2.1).2
  else if sp.name = "PLATEZ" then (set_reg_field regWords sp vals.2.2).2
  else regWords

/-- `_on_sensing_mode_selected`. -/
def onSensingModeSelected (s : UiState) (name : String) : UiState :=
  match sensingModePresets.lookup name with
  | none => s
  | some vals =>
    { s with regWords :=
        (FIELD_SPECS.foldl (fun m sp => applyPresetSpec m sp vals) s.regWords) }

/-- One loop iteration of `_copy_reg_to_mtp`. -/
def copySpec (regWords mtpWords : AddrMap) (sp : FieldSpec) : AddrMap :=
  if sp.reg_addr ≠ none ∧ sp.mtp_addr ≤ 0x0E then
    match get_reg_field regWords sp with
    | some v => (set_mtp_field mtpWords sp v).2
    | none => mtpWords
  else mtpWords

/-- `_copy_reg_to_mtp`. -/
def copyRegToMtp (s : UiState) : UiState :=
  { s with mtpWords :=
      (FIELD_SPECS.foldl (fun m sp => copySpec s.regWords m sp) s.mtpWords) }

/-- `on_decoded_cell_changed` for a REG_DEC cell: `v` is the already-parsed
numeric cell text (non-numeric text parses as 0 upstream). -/
def editRegCell (s : UiState) (row v : Nat) : UiState :=
  match FIELD_SPECS[row]? with
  | none => s
  | some sp =>
    if sp.reg_addr = none then s
    else { s with regWords :=
      (set_reg_field s.regWords sp (v &&& ((1 <<< sp.width) - 1))).2 }

/-- `on_decoded_cell_changed` for an MTP_DEC cell. -/
def editMtpCell (s : UiState) (row v : Nat) : UiState :=
  match FIELD_SPECS[row]? with
  | none => s
  | some sp =>
    if 0x0E < sp.mtp_addr then s
    else { s with mtpWords :=
      (set_mtp_field s.mtpWords sp (v &&& ((1 <<< sp.width) - 1))).2 }

/-- `_collect_buffer_words_from_reg_table`: the 8 displayed register words
(display shows `str(w)` for `w = reg_words.get(addr, 0)`; collection parses
it back and masks to 16 bits). -/
def collectRegWords (regWords : AddrMap) : List Nat :=
  (List.range 8).map (fun i => dictGet regWords (0x20 + 2 * i) &&& 0xFFFF)

/-- `_collect_buffer_words_from_mtp_table(start_row=0, count=8)`. -/
def collectMtpWords8 (mtpWords : AddrMap) : List Nat :=
  (List.range 8).map (fun i => dictGet mtpWords (2 * i) &&& 0xFFFF)

/-- `program_registers`: collect the 8 register words, run the loader
sequence with mode command `W`, then commit with `S`. -/
def programRegisters (s : UiState) : UiState :=
  match send_memory_sequence (collectRegWords s.regWords) 'W' with
  | .error _ => s
  | .ok bytes => sendCmd (sendText s bytes) 'S'

/-- `program_mtp`: collect MTP words 0x00..0x0E, show the 0x0C guardrail
dialog when word 6 is non-zero and the confirmation dialog, then run the
loader sequence with `E` and commit with `P`. -/
def programMtp (s : UiState) (confirmUnsafe confirmWrite : Bool) : UiState :=
  if (collectMtpWords8 s.mtpWords).getD 6 0 ≠ 0 && !confirmUnsafe then s
  else if !confirmWrite then s
  else
    match send_memory_sequence (collectMtpWords8 s.mtpWords) 'E' with
    | .error _ => s
    | .ok bytes => sendCmd (sendText s bytes) 'P'

/-- The events that drive the session. -/
inductive UiEvent where
  | connState (ok : Bool)
  | clickReadReg
  | clickReadMtp
  | clickIdentify
  | clickMeasure
  | clickProgReg
  | clickProgMtp (confirmUnsafe confirmWrite : Bool)
  | clickCopyRegToMtp
  | selectSensingMode (name : String)
  | editRegField (row v : Nat)
  | editMtpField (row v : Nat)
  | lineRx (line : String)

/-- One step of the session.  Clicks on the gated buttons are no-ops while
the button is disabled; `on_conn_state` resets the read flags on disconnect
and refreshes the button states; a received line updates the address
spaces through the decoder. -/
def uiStep (s : UiState) (e : UiEvent) : UiState :=
  match e with
  | .connState ok =>
    updateProgramButtons
      { s with connected := ok,
               regRead := if ok then s.regRead else false,
               mtpRead := if ok then s.mtpRead else false }
  | .clickReadReg =>
    if s.connected then sendCmd (updateProgramButtons { s with regRead := true }) 'C'
    else s
  | .clickReadMtp =>
    if s.connected then sendCmd (updateProgramButtons { s with mtpRead := true }) 'R'
    else s
  | .clickIdentify => if s.connected then sendCmd s 'I' else s
  | .clickMeasure => if s.connected then sendCmd s 'M' else s
  | .clickProgReg => if s.progRegEnabled then programRegisters s else s
  | .clickProgMtp cu cw => if s.progMtpEnabled then programMtp s cu cw else s
  | .clickCopyRegToMtp => copyRegToMtp s
  | .selectSensingMode name => onSensingModeSelected s name
  | .editRegField row v => editRegCell s row v
  | .editMtpField row v => editMtpCell s row v
  | .lineRx line =>
    { s with regWords := (on_line_rx_maps s.regWords s.mtpWords line).1,
             mtpWords := (on_line_rx_maps s.regWords s.mtpWords line).2 }

/-- The states the session can reach from start-up. -/
inductive UiReachable : UiState → Prop where
  | init : UiReachable uiInit
  | step : ∀ (s : UiState) (e : UiEvent), UiReachable s → UiReachable (uiStep s e)

/-- The five session flags, bundled for preservation lemmas. -/
def flagsOf (s : UiState) : Bool × Bool × Bool × Bool × Bool :=
  (s.connected, s.regRead, s.mtpRead, s.progRegEnabled, s.progMtpEnabled)

/-- The gating invariant maintained by `_update_program_buttons`: each
program button is enabled exactly when the session is connected and that
space's read flag is set. -/
def progInv (s : UiState) : Prop :=
  s.progRegEnabled = (s.connected && s.regRead) ∧
    s.progMtpEnabled = (s.connected && s.mtpRead)

lemma inv_transfer {s t : UiState} (hf : flagsOf t = flagsOf s) (h : progInv s) :
    progInv t := by
  unfold flagsOf at hf
  simp only [Prod.mk.injEq] at hf
  obtain ⟨h1, h2, h3, h4, h5⟩ := hf
  unfold progInv at h ⊢
  rw [h1, h2, h3, h4, h5]
  exact h

lemma flagsOf_sendCmd (s : UiState) (c : Char) : flagsOf (sendCmd s c) = flagsOf s := by
  unfold sendCmd
  split <;> rfl

lemma flagsOf_sendText (s : UiState) (bs : List Char) :
    flagsOf (sendText s bs) = flagsOf s := by
  unfold sendText
  split <;> rfl

lemma flagsOf_programRegisters (s : UiState) :
    flagsOf (programRegisters s) = flagsOf s := by
  unfold programRegisters
  split
  · rfl
  · rw [flagsOf_sendCmd, flagsOf_sendText]

lemma flagsOf_programMtp (s : UiState) (cu cw : Bool) :
    flagsOf (programMtp s cu cw) = flagsOf s := by
  unfold programMtp
  repeat' first
    | rfl
    | rw [flagsOf_sendCmd, flagsOf_sendText]
    | split

lemma flagsOf_copyRegToMtp (s : UiState) : flagsOf (copyRegToMtp s) = flagsOf s := rfl

lemma flagsOf_onSensingModeSelected (s : UiState) (name : String) :
    flagsOf (onSensingModeSelected s name) = flagsOf s := by
  unfold onSensingModeSelected
  split <;> rfl

lemma flagsOf_editRegCell (s : UiState) (row v : Nat) :
    flagsOf (editRegCell s row v) = flagsOf s := by
  unfold editRegCell
  split
  · rfl
  · split <;> rfl

lemma flagsOf_editMtpCell (s : UiState) (row v : Nat) :
    flagsOf (editMtpCell s row v) = flagsOf s := by
  unfold editMtpCell
  split
  · rfl
  · split <;> rfl

/-- Every reachable session state satisfies the gating invariant. -/
lemma ui_prog_buttons_inv : ∀ s, UiReachable s → progInv s := by
  intro s h
  induction h with
  | init => exact ⟨rfl, rfl⟩
  | step s e hs ih =>
    cases e with
    | connState ok => constructor <;> simp [uiStep, updateProgramButtons]
    | clickReadReg =>
      simp only [uiStep]
      split
      · next hc =>
        refine inv_transfer (flagsOf_sendCmd _ 'C') ?_
        constructor <;> simp [updateProgramButtons]
      · exact ih
    | clickReadMtp =>
      simp only [uiStep]
      split
      · next hc =>
        refine inv_transfer (flagsOf_sendCmd _ 'R') ?_
        constructor <;> simp [updateProgramButtons]
      · exact ih
    | clickIdentify =>
      simp only [uiStep]
      split
      · exact inv_transfer (flagsOf_sendCmd s 'I') ih
      · exact ih
    | clickMeasure =>
      simp only [uiStep]
      split
      · exact inv_transfer (flagsOf_sendCmd s 'M') ih
      · exact ih
    | clickProgReg =>
      simp only [uiStep]
      split
      · exact inv_transfer (flagsOf_programRegisters s) ih
      · exact ih
    | clickProgMtp cu cw =>
      simp only [uiStep]
      split
      · exact inv_transfer (flagsOf_programMtp s cu cw) ih
      · exact ih
    | clickCopyRegToMtp => exact inv_transfer (flagsOf_copyRegToMtp s) ih
    | selectSensingMode name => exact inv_transfer (flagsOf_onSensingModeSelected s name) ih
    | editRegField row v => exact inv_transfer (flagsOf_editRegCell s row v) ih
    | editMtpField row v => exact inv_transfer (flagsOf_editMtpCell s row v) ih
    | lineRx line => exact inv_transfer rfl ih

/-- **C8.** In every reachable session state with `registers_read` false —
connected or not — a program-registers request is a complete no-op: the
program button is disabled, so the click never reaches `program_registers`
and no byte is emitted on the transport. -/
theorem C8_program_registers_gated :
    ∀ s, UiReachable s → s.regRead = false →
      uiStep s .clickProgReg = s ∧ (uiStep s .clickProgReg).out = s.out := by
  intro s hs hr
  have h := (ui_prog_buttons_inv s hs).1
  rw [hr, Bool.and_false] at h
  have hstep : uiStep s .clickProgReg = s := by
    simp [uiStep, h]
  exact ⟨hstep, by rw [hstep]⟩

/-- Witness for C8: immediately after a successful connect the session is
reachable, Connected, and has `registers_read` still false; a
program-registers request there changes nothing and emits nothing. -/
theorem C8_program_registers_gated_witness :
    UiReachable (uiStep uiInit (.connState true)) ∧
      (uiStep uiInit (.connState true)).connected = true ∧
      (uiStep uiInit (.connState true)).regRead = false ∧
      uiStep (uiStep uiInit (.connState true)) .clickProgReg =
          uiStep uiInit (.connState true) ∧
      (uiStep (uiStep uiInit (.connState true)) .clickProgReg).out =
        (uiStep uiInit (.connState true)).out :=
  ⟨.step uiInit (.connState true) .init, rfl, rfl,
    C8_program_registers_gated (uiStep uiInit (.connState true))
      (.step uiInit (.connState true) .init) rfl⟩

/-! ### 16-bit boundedness of every stored word -/

/-- Every word held in an address space lies in `[0, 0xFFFF]`. -/
def mapBounded (m : AddrMap) : Prop := ∀ a w, m a = some w → w < 2 ^ 16

lemma mapBounded_empty : mapBounded dictEmpty := by
  intro a w h
  simp [dictEmpty] at h

lemma and_ffff_lt (x : Nat) : x &&& 0xFFFF < 2 ^ 16 :=
  Nat.and_lt_two_pow x (by norm_num)

lemma mapBounded_dictSet {m : AddrMap} (hm : mapBounded m) {a w : Nat}
    (hw : w < 2 ^ 16) : mapBounded (dictSet m a w) := by
  intro x u hx
  unfold dictSet at hx
  split at hx
  · cases hx
    exact hw
  · exact hm x u hx

/-- `set_field_at` stores only `w2 &&& 0xFFFF`, so it preserves
boundedness. -/
lemma set_field_at_bounded {m : AddrMap} (addr : Option Nat) (sp : FieldSpec)
    (v : Nat) (hm : mapBounded m) : mapBounded (set_field_at m addr sp v).2 := by
  cases addr with
  | none => exact hm
  | some a => exact mapBounded_dictSet hm (and_ffff_lt _)

lemma routePair_bounded {r m : AddrMap} (p : Nat × Nat) (hr : mapBounded r)
    (hm : mapBounded m) :
    mapBounded (routePair r m p).1 ∧ mapBounded (routePair r m p).2 := by
  unfold routePair
  split
  · exact ⟨mapBounded_dictSet hr (and_ffff_lt _), hm⟩
  · exact ⟨hr, mapBounded_dictSet hm (and_ffff_lt _)⟩

lemma routePairs_bounded :
    ∀ (ps : List (Nat × Nat)) (r m : AddrMap), mapBounded r → mapBounded m →
      mapBounded (routePairs r m ps).1 ∧ mapBounded (routePairs r m ps).2 := by
  intro ps
  induction ps with
  | nil => intro r m hr hm; exact ⟨hr, hm⟩
  | cons p ps ih =>
    intro r m hr hm
    have h := routePair_bounded p hr hm
    have h2 := ih (routePair r m p).1 (routePair r m p).2 h.1 h.2
    simpa [routePairs] using h2

lemma on_line_rx_maps_bounded (r m : AddrMap) (line : String) (hr : mapBounded r)
    (hm : mapBounded m) :
    mapBounded (on_line_rx_maps r m line).1 ∧
      mapBounded (on_line_rx_maps r m line).2 := by
  unfold on_line_rx_maps
  split
  · exact ⟨hr, hm⟩
  · exact ⟨hr, hm⟩
  · exact routePairs_bounded _ r m hr hm

lemma foldl_bounded {α : Type} (f : AddrMap → α → AddrMap)
    (hf : ∀ m x, mapBounded m → mapBounded (f m x)) :
    ∀ (l : List α) (m : AddrMap), mapBounded m → mapBounded (l.foldl f m) := by
  intro l
  induction l with
  | nil => intro m hm; exact hm
  | cons x xs ih => intro m hm; exact ih (f m x) (hf m x hm)

lemma applyPresetSpec_bounded (vals : Nat × Nat × Nat) (m : AddrMap)
    (sp : FieldSpec) (hm : mapBounded m) : mapBounded (applyPresetSpec m sp vals) := by
  unfold applyPresetSpec
  repeat' first
    | exact set_field_at_bounded _ _ _ hm
    | exact hm
    | split

lemma copySpec_bounded (r m : AddrMap) (sp : FieldSpec) (hm : mapBounded m) :
    mapBounded (copySpec r m sp) := by
  unfold copySpec
  repeat' first
    | exact set_field_at_bounded _ _ _ hm
    | exact hm
    | split

/-- The two address-space maps, bundled for preservation lemmas. -/
def wordsOf (s : UiState) : AddrMap × AddrMap := (s.regWords, s.mtpWords)

lemma bounded_transfer {s t : UiState} (h : wordsOf t = wordsOf s)
    (hb : mapBounded s.regWords ∧ mapBounded s.mtpWords) :
    mapBounded t.regWords ∧ mapBounded t.mtpWords := by
  unfold wordsOf at h
  simp only [Prod.mk.injEq] at h
  rw [h.1, h.2]
  exact hb

lemma wordsOf_sendCmd (s : UiState) (c : Char) : wordsOf (sendCmd s c) = wordsOf s := by
  unfold sendCmd
  split <;> rfl

lemma wordsOf_sendText (s : UiState) (bs : List Char) :
    wordsOf (sendText s bs) = wordsOf s := by
  unfold sendText
  split <;> rfl

lemma wordsOf_programRegisters (s : UiState) :
    wordsOf (programRegisters s) = wordsOf s := by
  unfold programRegisters
  split
  · rfl
  · rw [wordsOf_sendCmd, wordsOf_sendText]

lemma wordsOf_programMtp (s : UiState) (cu cw : Bool) :
    wordsOf (programMtp s cu cw) = wordsOf s := by
  unfold programMtp
  repeat' first
    | rfl
    | rw [wordsOf_sendCmd, wordsOf_sendText]
    | split

/-- **C10.** In every reachable session state, every word stored in either
address space by any operation — field writes from cell edits, sensing-mode
presets, the REG→MTP copy, or the routing of decoded `(address, word)`
pairs from inbound lines — has been masked to 16 bits, so both maps only
hold values in `[0, 0xFFFF]`. -/
theorem C10_stored_words_bounded :
    ∀ s, UiReachable s → mapBounded s.regWords ∧ mapBounded s.mtpWords := by
  intro s h
  induction h with
  | init => exact ⟨mapBounded_empty, mapBounded_empty⟩
  | step s e hs ih =>
    cases e with
    | connState ok => exact ih
    | clickReadReg =>
      simp only [uiStep]
      split
      · exact bounded_transfer (wordsOf_sendCmd _ 'C') ih
      · exact ih
    | clickReadMtp =>
      simp only [uiStep]
      split
      · exact bounded_transfer (wordsOf_sendCmd _ 'R') ih
      · exact ih
    | clickIdentify =>
      simp only [uiStep]
      split
      · exact bounded_transfer (wordsOf_sendCmd s 'I') ih
      · exact ih
    | clickMeasure =>
      simp only [uiStep]
      split
      · exact bounded_transfer (wordsOf_sendCmd s 'M') ih
      · exact ih
    | clickProgReg =>
      simp only [uiStep]
      split
      · exact bounded_transfer (wordsOf_programRegisters s) ih
      · exact ih
    | clickProgMtp cu cw =>
      simp only [uiStep]
      split
      · exact bounded_transfer (wordsOf_programMtp s cu cw) ih
      · exact ih
    | clickCopyRegToMtp =>
      exact ⟨ih.1, foldl_bounded _ (fun m sp hm => copySpec_bounded s.regWords m sp hm)
        FIELD_SPECS s.mtpWords ih.2⟩
    | selectSensingMode name =>
      simp only [uiStep, onSensingModeSelected]
      split
      · exact ih
      · exact ⟨foldl_bounded _ (fun m sp hm => applyPresetSpec_bounded _ m sp hm)
          FIELD_SPECS s.regWords ih.1, ih.2⟩
    | editRegField row v =>
      simp only [uiStep, editRegCell]
      split
      · exact ih
      · split
        · exact ih
        · exact ⟨set_field_at_bounded _ _ _ ih.1, ih.2⟩
    | editMtpField row v =>
      simp only [uiStep, editMtpCell]
      split
      · exact ih
      · split
        · exact ih
        · exact ⟨ih.1, set_field_at_bounded _ _ _ ih.2⟩
    | lineRx line =>
      exact on_line_rx_maps_bounded s.regWords s.mtpWords line ih.1 ih.2

/-- Witness for C10: after receiving the line `"20 1234"` from the initial
state, the register map holds 0x1234 at 0x20, and the invariant instantiates
to the concrete bound `0x1234 < 2^16`. -/
theorem C10_stored_words_bounded_witness :
    (uiStep uiInit (.lineRx "20 1234")).regWords 0x20 = some 0x1234 ∧
      (0x1234 : Nat) < 2 ^ 16 :=
  ⟨by decide,
    (C10_stored_words_bounded (uiStep uiInit (.lineRx "20 1234"))
        (.step uiInit (.lineRx "20 1234") .init)).1 0x20 0x1234 (by decide)⟩

example : get_field_at (dictSet dictEmpty 0x20 0xABCD) (some 0x20) ⟨"FG_X", some 0x20, 0x00, "LSB", 3, 5⟩ = some 25 := by decide

example : (set_field_at (dictSet dictEmpty 0x20 0xABCD) (some 0x20)
    ⟨"FG_X", some 0x20, 0x00, "LSB", 3, 5⟩ 21).2 0x20 = some 0xABAD := by decide
